import Mathlib

/-!
Verification of the Mimir Prometheus rule-group handler
(`pkg/mimir/rules-handler.go`).

The handler manipulates Go values of type `map[string]interface{}`;
we embed such maps as association lists in insertion order, and the
scalar values that occur in rule maps (`nil`, strings, numbers,
booleans) as the inductive type `GoValue`.  The remote rule grouping
(`map[string][]rwrulefmt.RuleGroup`) is likewise embedded as an
association list; its list order stands for the (unspecified) Go map
iteration order, so theorems about it either take a key-uniqueness
hypothesis or state order-independent properties.
-/

set_option autoImplicit false

namespace Grizzly

/-- Scalar values occurring in Go `map[string]interface{}` rule maps.
`null` is the untyped Go `nil` interface value. -/
inductive GoValue where
  | null
  | str (s : String)
  | num (n : Int)
  | boolean (b : Bool)
deriving DecidableEq, Repr

/-- A Go `map[string]interface{}` rule mapping, embedded as an
association list in insertion order. -/
abbrev RuleMap := List (String × GoValue)

/-- Association-list lookup: the Go two-result map read `v, ok := m[k]`. -/
def alistLookup {β : Type} : List (String × β) → String → Option β
  | [], _ => none
  | p :: m, k => if p.1 = k then some p.2 else alistLookup m k

/-- Association-list update: the Go map write `m[k] = v`
(replace when the key is present, append otherwise). -/
def alistInsert {β : Type} : List (String × β) → String → β → List (String × β)
  | [], k, v => [(k, v)]
  | p :: m, k, v => if p.1 = k then (k, v) :: m else p :: alistInsert m k v

/-- Association-list removal: the Go builtin `delete(m, k)`. -/
def alistDelete {β : Type} : List (String × β) → String → List (String × β)
  | [], _ => []
  | p :: m, k => if p.1 = k then alistDelete m k else p :: alistDelete m k

/-- The Go one-result map read `m[k]`, which yields the untyped `nil`
interface value when the key is absent. -/
def goIndex (m : RuleMap) (k : String) : GoValue :=
  (alistLookup m k).getD GoValue.null

/-- First half of the loop body of `writeRuleGroup`
(`rules-handler.go` lines 144-152): when the field "type" is
"recording" the field "name" is moved to "record", when it is
"alerting" the field "name" is moved to "alert"; any other value of
"type" leaves the rule untouched.  The Go code mutates the rule map in
place; this function returns the resulting map contents. -/
def renameNameField (rule : RuleMap) : RuleMap :=
  if goIndex rule "type" = GoValue.str "recording" then
    alistDelete (alistInsert rule "record" (goIndex rule "name")) "name"
  else if goIndex rule "type" = GoValue.str "alerting" then
    alistDelete (alistInsert rule "alert" (goIndex rule "name")) "name"
  else rule

/-- Second half of the loop body of `writeRuleGroup`
(`rules-handler.go` lines 153-157): a non-nil "query" field is moved
to "expr". -/
def renameQueryField (rule : RuleMap) : RuleMap :=
  if goIndex rule "query" ≠ GoValue.null then
    alistDelete (alistInsert rule "expr" (goIndex rule "query")) "query"
  else rule

/-- The complete per-rule translation performed by the loop body of
`writeRuleGroup`: the type-directed name rename followed by the
query-to-expr rename, both acting on the same rule map. -/
def translateRule (rule : RuleMap) : RuleMap :=
  renameQueryField (renameNameField rule)

/-- `models.PrometheusRuleGroup`: a named group with its rule list.
The Go field `Rules` is `[]interface{}`; every element handled by this
adapter is a rule map, so we type it as `List RuleMap`. -/
structure PrometheusRuleGroup where
  name : String
  rules : List RuleMap
deriving DecidableEq, Repr

/-- The remote rule grouping returned by `ListRules`
(`map[string][]rwrulefmt.RuleGroup`): namespace keys to group lists,
embedded as an association list. -/
abbrev RuleGrouping := List (String × List PrometheusRuleGroup)

/-- `models.PrometheusRuleGrouping`: one namespace together with the
groups pushed to it by `CreateRules`. -/
structure PrometheusRuleGrouping where
  ns : String
  groups : List PrometheusRuleGroup
deriving DecidableEq, Repr

/-- Errors produced by the handler or reported by the remote client.
`notFound` is the sentinel `grizzly.ErrNotFound`; `mismatch` and
`missingMetadata` carry the values named by the corresponding
`fmt.Errorf` messages; `clientError` stands for any opaque error the
remote client returns. -/
inductive GoError where
  | notFound
  | mismatch (uid name : String)
  | missingMetadata (kind name : String)
  | unsupported (msg : String)
  | clientError (msg : String)
deriving DecidableEq, Repr

/-- Spec-map values: strings (such as the "uid" entry), the "rules"
list of rule maps, or any other scalar. -/
inductive SpecValue where
  | str (s : String)
  | rules (rs : List RuleMap)
  | other (v : GoValue)
deriving DecidableEq, Repr

/-- A resource spec, a Go `map[string]interface{}` embedded as an
association list. -/
abbrev SpecMap := List (String × SpecValue)

/-- Modelled from the spec: the host-framework `grizzly.Resource`
(its Go definition is outside the supplied source).  Per the spec it
is a kind, a name, a metadata mapping and a spec mapping. -/
structure Resource where
  apiVersion : String
  kind : String
  name : String
  metadata : List (String × String)
  spec : SpecMap
deriving DecidableEq, Repr

/-- Modelled from the spec: the accessor `resource.HasMetadata(key)`. -/
def hasMetadata (r : Resource) (k : String) : Bool :=
  (alistLookup r.metadata k).isSome

/-- Modelled from the spec: the accessor `resource.GetMetadata(key)`;
a Go map read yielding the zero string when the key is absent. -/
def getMetadata (r : Resource) (k : String) : String :=
  (alistLookup r.metadata k).getD ""

/-- Modelled from the spec: the mutator `resource.SetMetadata(key, value)`. -/
def setMetadata (r : Resource) (k v : String) : Resource :=
  { r with metadata := alistInsert r.metadata k v }

/-- Modelled from the spec: `resource.GetSpecString(key)` returns the
spec entry and `true` when it is present as a string, otherwise the
zero string and `false`. -/
def getSpecString (r : Resource) (k : String) : String × Bool :=
  match alistLookup r.spec k with
  | some (SpecValue.str s) => (s, true)
  | _ => ("", false)

/-- Modelled from the spec: the constructor
`grizzly.NewResource(apiVersion, kind, name, spec)`.  The spec names an
error channel but no failure condition, so it is modelled total, with
fresh (empty) metadata. -/
def newResource (apiVersion kind name : String) (spec : SpecMap) : Resource :=
  ⟨apiVersion, kind, name, [], spec⟩

/-- Modelled from the spec: the remote client collaborator
`client.Mimir`.  `listRules` is the outcome of `ListRules()` for the
duration of one handler operation; `createRules` is `CreateRules`. -/
structure MimirClient where
  listRules : Except GoError RuleGrouping
  createRules : PrometheusRuleGrouping → Except GoError Unit

/-- The kind tag `PrometheusRuleGroupKind`. -/
def PrometheusRuleGroupKind : String := "PrometheusRuleGroup"

/-- The handler `RuleHandler`: the injected remote client together
with the API version supplied by its provider (`h.APIVersion()`). -/
structure RuleHandler where
  apiVersion : String
  clientTool : MimirClient

/-- The replacement performed by
`strings.ReplaceAll(name, string(os.PathSeparator), "-")` on the
character list of the name; `os.PathSeparator` is the slash on the
platforms this file targets. -/
def replaceSepChars : List Char → List Char
  | [] => []
  | c :: cs => (if c = '/' then '-' else c) :: replaceSepChars cs

/-- `ResourceFilePath`: formats `prometheus/rules-%s.%s` with the
separator-sanitised resource name and the file type. -/
def RuleHandler.ResourceFilePath (_h : RuleHandler) (resource : Resource)
    (filetype : String) : String :=
  "prometheus/rules-" ++ String.mk (replaceSepChars resource.name.toList)
    ++ "." ++ filetype

/-- `Validate`: rejects a spec "uid" entry that differs from the
resource name, and accepts otherwise.  The definition does not consult
the remote client. -/
def RuleHandler.Validate (_h : RuleHandler) (resource : Resource) :
    Except GoError Unit :=
  let (uid, exist) := getSpecString resource "uid"
  if exist && uid != resource.name then
    Except.error (GoError.mismatch uid resource.name)
  else Except.ok ()

/-- `GetUID`: requires a "namespace" metadata entry and returns the
composite id `namespace.name`. -/
def RuleHandler.GetUID (_h : RuleHandler) (resource : Resource) :
    Except GoError String :=
  if !hasMetadata resource "namespace" then
    Except.error (GoError.missingMetadata PrometheusRuleGroupKind resource.name)
  else Except.ok (getMetadata resource "namespace" ++ "." ++ resource.name)

/-- Splits a character list at the first dot, returning the parts
before and after it, or `none` when no dot occurs. -/
def breakAtDot : List Char → Option (List Char × List Char)
  | [] => none
  | c :: cs =>
    if c = '.' then some ([], cs)
    else
      match breakAtDot cs with
      | none => none
      | some (a, b) => some (c :: a, b)

/-- `strings.SplitN(s, ".", 2)`: the whole string when it has no dot,
otherwise the parts before and after the first dot. -/
def splitN2Dot (s : String) : List String :=
  match breakAtDot s.toList with
  | none => [s]
  | some (a, b) => [String.mk a, String.mk b]

/-- The resource built by `getRemoteRuleGroup` on a match:
`grizzly.NewResource` on the group name and a spec holding only the
raw remote rule list, followed by `SetMetadata("namespace", ...)`. -/
def RuleHandler.buildRuleResource (h : RuleHandler) (nspace : String)
    (group : PrometheusRuleGroup) : Resource :=
  setMetadata
    (newResource h.apiVersion PrometheusRuleGroupKind group.name
      [("rules", SpecValue.rules group.rules)])
    "namespace" nspace

/-- The inner scan of `getRemoteRuleGroup`: the first group of the
given name inside a group list. -/
def findRuleGroup (groups : List PrometheusRuleGroup) (name : String) :
    Option PrometheusRuleGroup :=
  groups.find? (fun group => group.name = name)

/-- The double loop of `getRemoteRuleGroup`: scan the grouping for the
namespace key, scan its groups for the name, build the resource on a
match, and fall through to `grizzly.ErrNotFound`. -/
def RuleHandler.scanGroupings (h : RuleHandler) (nspace name : String) :
    RuleGrouping → Except GoError Resource
  | [] => Except.error GoError.notFound
  | (key, grouping) :: rest =>
    if key = nspace then
      match findRuleGroup grouping name with
      | some group => Except.ok (h.buildRuleResource nspace group)
      | none => h.scanGroupings nspace name rest
    else h.scanGroupings nspace name rest

/-- The body of `getRemoteRuleGroup` after the uid split: one
`ListRules` round trip whose failure is propagated unchanged, then the
in-memory scan. -/
def RuleHandler.lookupRuleGroup (h : RuleHandler) (nspace name : String) :
    Except GoError Resource :=
  match h.clientTool.listRules with
  | Except.error e => Except.error e
  | Except.ok groupings => h.scanGroupings nspace name groupings

/-- `getRemoteRuleGroup`: splits the uid on the first dot and looks the
group up remotely.  The source reads `parts[1]` unconditionally; when
the uid has no dot that access is out of range (a runtime panic),
modelled by `none`. -/
def RuleHandler.getRemoteRuleGroup (h : RuleHandler) (uid : String) :
    Option (Except GoError Resource) :=
  match splitN2Dot uid with
  | [nspace, name] => some (h.lookupRuleGroup nspace name)
  | _ => none

/-- `GetByUID`: delegates to `getRemoteRuleGroup`. -/
def RuleHandler.GetByUID (h : RuleHandler) (uid : String) :
    Option (Except GoError Resource) :=
  h.getRemoteRuleGroup uid

/-- `GetRemote`: forms the composite id from the namespace metadata and
the name, then delegates to `getRemoteRuleGroup`. -/
def RuleHandler.GetRemote (h : RuleHandler) (resource : Resource) :
    Option (Except GoError Resource) :=
  h.getRemoteRuleGroup (getMetadata resource "namespace" ++ "." ++ resource.name)

/-- `getRemoteRuleGroupList`: one `ListRules` round trip, then one
composite id `namespace.group-name` per group of every namespace, in
iteration order. -/
def RuleHandler.getRemoteRuleGroupList (h : RuleHandler) :
    Except GoError (List String) :=
  match h.clientTool.listRules with
  | Except.error e => Except.error e
  | Except.ok groupings =>
    Except.ok (groupings.flatMap
      (fun p => p.2.map (fun group => p.1 ++ "." ++ group.name)))

/-- `ListRemote`: delegates to `getRemoteRuleGroupList`. -/
def RuleHandler.ListRemote (h : RuleHandler) : Except GoError (List String) :=
  h.getRemoteRuleGroupList

/-- The grouping that `writeRuleGroup` hands to `CreateRules`: one
group named after the resource holding the translated rules, wrapped
in a one-group grouping tagged with the namespace metadata; `none`
when the spec "rules" entry is absent or not a rule list (the failed
Go type assertion, a runtime panic). -/
def buildGrouping (resource : Resource) : Option PrometheusRuleGrouping :=
  match alistLookup resource.spec "rules" with
  | some (SpecValue.rules rules) =>
    some ⟨getMetadata resource "namespace", [⟨resource.name, rules.map translateRule⟩]⟩
  | _ => none

/-- `writeRuleGroup`: translates every rule of the spec "rules" list
and pushes the resulting one-group grouping via `CreateRules`.  The Go
loop renames fields of the rule maps in place, so the caller-visible
resource afterwards holds the translated rule maps; the pair returned
here is the `CreateRules` outcome together with that post-call state
of the resource.  `none` models the panic of the failed type assertion
on "rules".  (The rule maps of the list are assumed to be distinct
objects, as they are when the spec comes from parsed input.) -/
def RuleHandler.writeRuleGroup (h : RuleHandler) (resource : Resource) :
    Option (Except GoError Unit × Resource) :=
  match alistLookup resource.spec "rules" with
  | some (SpecValue.rules rules) =>
    let translated := rules.map translateRule
    let grouping : PrometheusRuleGrouping :=
      ⟨getMetadata resource "namespace", [⟨resource.name, translated⟩]⟩
    some (h.clientTool.createRules grouping,
      { resource with spec := alistInsert resource.spec "rules" (SpecValue.rules translated) })
  | _ => none

/-- `Add`: delegates to `writeRuleGroup`. -/
def RuleHandler.Add (h : RuleHandler) (resource : Resource) :
    Option (Except GoError Unit × Resource) :=
  h.writeRuleGroup resource

/-- `Update`: delegates to `writeRuleGroup` on the new resource; the
existing resource is not used. -/
def RuleHandler.Update (h : RuleHandler) (existing resource : Resource) :
    Option (Except GoError Unit × Resource) :=
  h.writeRuleGroup resource

/-- The alerting rule used as the running example. -/
def exRule : RuleMap :=
  [("type", GoValue.str "alerting"), ("name", GoValue.str "HighLatency"),
    ("query", GoValue.str "up == 0")]

/-- The translation of `exRule`. -/
def exRuleTranslated : RuleMap :=
  [("type", GoValue.str "alerting"), ("alert", GoValue.str "HighLatency"),
    ("expr", GoValue.str "up == 0")]

/-- A concrete remote client: one namespace "teamA" holding one group
"latency" with one rule. -/
def exClient : MimirClient :=
  { listRules := Except.ok [("teamA", [⟨"latency", [exRule]⟩])],
    createRules := fun _ => Except.ok () }

/-- A concrete handler over `exClient`. -/
def exHandler : RuleHandler := ⟨"v1", exClient⟩

/-- A concrete resource named "latency" in namespace "teamA" holding
`exRule`. -/
def exResource : Resource :=
  ⟨"v1", PrometheusRuleGroupKind, "latency", [("namespace", "teamA")],
    [("rules", SpecValue.rules [exRule])]⟩

/-- The two-namespace grouping of the list example. -/
def exGrouping5 : RuleGrouping :=
  [("teamA", [⟨"g1", []⟩]), ("teamB", [⟨"g2", []⟩, ⟨"g3", []⟩])]

/-- A concrete handler whose client lists `exGrouping5`. -/
def exHandler5 : RuleHandler :=
  ⟨"v1", ⟨Except.ok exGrouping5, fun _ => Except.ok ()⟩⟩

/-- A concrete handler whose client fails to list rules. -/
def exHandlerErr : RuleHandler :=
  ⟨"v1", ⟨Except.error (GoError.clientError "boom"), fun _ => Except.ok ()⟩⟩

/-- A concrete resource with no "namespace" metadata entry. -/
def exResourceNoNs : Resource :=
  ⟨"v1", PrometheusRuleGroupKind, "latency", [], [("rules", SpecValue.rules [exRule])]⟩

/-- A concrete resource whose spec "uid" differs from its name. -/
def exResourceBadUid : Resource :=
  ⟨"v1", PrometheusRuleGroupKind, "latency", [("namespace", "teamA")],
    [("uid", SpecValue.str "other")]⟩

/-- A concrete resource whose name contains a path separator. -/
def exResourceSlash : Resource :=
  ⟨"v1", PrometheusRuleGroupKind, "a/b", [], []⟩

/-! ## Association-list lemmas -/

theorem alistLookup_insert_self {β : Type} (m : List (String × β)) (k : String) (v : β) :
    alistLookup (alistInsert m k v) k = some v := by
  induction m with
  | nil => simp [alistInsert, alistLookup]
  | cons p m ih =>
    by_cases hp : p.1 = k
    · simp [alistInsert, hp, alistLookup]
    · simp [alistInsert, hp, alistLookup, ih]

theorem alistLookup_insert_ne {β : Type} (m : List (String × β)) (k k' : String)
    (v : β) (h : k' ≠ k) :
    alistLookup (alistInsert m k v) k' = alistLookup m k' := by
  induction m with
  | nil => simp [alistInsert, alistLookup, Ne.symm h]
  | cons p m ih =>
    obtain ⟨a, b⟩ := p
    by_cases hp : a = k
    · subst hp
      simp [alistInsert, alistLookup, Ne.symm h]
    · simp [alistInsert, hp, alistLookup, ih]

theorem alistLookup_delete_self {β : Type} (m : List (String × β)) (k : String) :
    alistLookup (alistDelete m k) k = none := by
  induction m with
  | nil => simp [alistDelete, alistLookup]
  | cons p m ih =>
    by_cases hp : p.1 = k
    · simp [alistDelete, hp, ih]
    · simp [alistDelete, hp, alistLookup, ih]

theorem alistLookup_delete_ne {β : Type} (m : List (String × β)) (k k' : String)
    (h : k' ≠ k) :
    alistLookup (alistDelete m k) k' = alistLookup m k' := by
  induction m with
  | nil => simp [alistDelete]
  | cons p m ih =>
    by_cases hp : p.1 = k
    · simp [alistDelete, hp, alistLookup, ih, Ne.symm h]
    · simp [alistDelete, hp, alistLookup, ih]

/-! ## Lookup lemmas for the per-rule translation -/

theorem alistLookup_renameQueryField_ne (m : RuleMap) (k : String)
    (h1 : k ≠ "expr") (h2 : k ≠ "query") :
    alistLookup (renameQueryField m) k = alistLookup m k := by
  unfold renameQueryField
  split
  · rw [alistLookup_delete_ne _ _ _ h2, alistLookup_insert_ne _ _ _ _ h1]
  · rfl

theorem alistLookup_renameNameField_ne (m : RuleMap) (k : String)
    (h1 : k ≠ "record") (h2 : k ≠ "alert") (h3 : k ≠ "name") :
    alistLookup (renameNameField m) k = alistLookup m k := by
  unfold renameNameField
  split
  · rw [alistLookup_delete_ne _ _ _ h3, alistLookup_insert_ne _ _ _ _ h1]
  · split
    · rw [alistLookup_delete_ne _ _ _ h3, alistLookup_insert_ne _ _ _ _ h2]
    · rfl

/-! ## Lemmas about the file-path sanitiser -/

theorem replaceSepChars_eq_map (l : List Char) :
    replaceSepChars l = l.map (fun c => if c = '/' then '-' else c) := by
  induction l with
  | nil => rfl
  | cons c cs ih => simp [replaceSepChars, ih]

theorem slash_not_mem_replaceSepChars (l : List Char) :
    '/' ∉ replaceSepChars l := by
  induction l with
  | nil => simp [replaceSepChars]
  | cons c cs ih =>
    simp only [replaceSepChars, List.mem_cons]
    rintro (h | h)
    · by_cases hc : c = '/'
      · rw [if_pos hc] at h
        exact absurd h (by decide)
      · rw [if_neg hc] at h
        exact hc h.symm
    · exact ih h

/-! ## Lemmas about the uid split -/

theorem breakAtDot_isSome (l : List Char) :
    (breakAtDot l).isSome = true ↔ '.' ∈ l := by
  induction l with
  | nil => simp [breakAtDot]
  | cons c cs ih =>
    simp only [breakAtDot, List.mem_cons]
    by_cases hc : c = '.'
    · simp [hc]
    · rw [if_neg hc]
      cases hb : breakAtDot cs with
      | none =>
        rw [hb] at ih
        simp only [Option.isSome_none, Bool.false_eq_true, false_iff] at ih
        simp [ih]
        exact fun hh => hc hh.symm
      | some p =>
        rw [hb] at ih
        simp only [Option.isSome_some, true_iff] at ih
        simp [ih]

theorem breakAtDot_append (a b : List Char) (h : '.' ∉ a) :
    breakAtDot (a ++ '.' :: b) = some (a, b) := by
  induction a with
  | nil => simp [breakAtDot]
  | cons c cs ih =>
    have hc : ¬ c = '.' := fun hh => h (hh ▸ List.mem_cons_self _ _)
    have hcs : '.' ∉ cs := fun hh => h (List.mem_cons_of_mem _ hh)
    simp [breakAtDot, hc, ih hcs]

theorem breakAtDot_fst_no_dot (l : List Char) :
    ∀ a b, breakAtDot l = some (a, b) → '.' ∉ a := by
  induction l with
  | nil => intro a b h; simp [breakAtDot] at h
  | cons c cs ih =>
    intro a b h
    simp only [breakAtDot] at h
    by_cases hc : c = '.'
    · rw [if_pos hc] at h
      obtain ⟨rfl, rfl⟩ : [] = a ∧ cs = b := by
        simpa using h
      simp
    · rw [if_neg hc] at h
      cases hb : breakAtDot cs with
      | none => rw [hb] at h; exact absurd h (by simp)
      | some p =>
        obtain ⟨x, y⟩ := p
        rw [hb] at h
        obtain ⟨rfl, rfl⟩ : c :: x = a ∧ y = b := by
          simpa using h
        intro hmem
        rcases List.mem_cons.mp hmem with hh | hh
        · exact hc hh.symm
        · exact ih x y hb hh

theorem toList_append_dot (a b : String) :
    (a ++ "." ++ b).toList = a.toList ++ '.' :: b.toList := by
  show (a ++ "." ++ b).data = a.data ++ '.' :: b.data
  rw [String.data_append, String.data_append, List.append_assoc]
  rfl

theorem mk_toList (s : String) : String.mk s.toList = s := by
  cases s
  rfl

theorem splitN2Dot_append (a b : String) (h : '.' ∉ a.toList) :
    splitN2Dot (a ++ "." ++ b) = [a, b] := by
  unfold splitN2Dot
  rw [toList_append_dot, breakAtDot_append _ _ h]
  show [String.mk a.toList, String.mk b.toList] = [a, b]
  rw [mk_toList, mk_toList]

theorem getByUID_split (h : RuleHandler) (nspace name : String)
    (hdot : '.' ∉ nspace.toList) :
    h.GetByUID (nspace ++ "." ++ name) = some (h.lookupRuleGroup nspace name) := by
  unfold RuleHandler.GetByUID RuleHandler.getRemoteRuleGroup
  rw [splitN2Dot_append _ _ hdot]

/-! ## Lemmas about the grouping scan -/

theorem scanGroupings_found (h : RuleHandler) (nspace name : String)
    (g : RuleGrouping) (hnodup : (g.map Prod.fst).Nodup)
    (groups : List PrometheusRuleGroup) (group : PrometheusRuleGroup)
    (hmem : (nspace, groups) ∈ g)
    (hfind : findRuleGroup groups name = some group) :
    h.scanGroupings nspace name g = Except.ok (h.buildRuleResource nspace group) := by
  induction g with
  | nil => cases hmem
  | cons p rest ih =>
    obtain ⟨key, grouping⟩ := p
    rcases List.mem_cons.mp hmem with heq | hmem2
    · obtain ⟨rfl, rfl⟩ : key = nspace ∧ grouping = groups := by
        have := heq.symm
        simp only [Prod.mk.injEq] at this
        exact this
      simp [RuleHandler.scanGroupings, hfind]
    · simp only [List.map_cons, List.nodup_cons] at hnodup
      by_cases hk : key = nspace
      · exfalso
        subst hk
        exact hnodup.1 (List.mem_map.mpr ⟨(key, groups), hmem2, rfl⟩)
      · simp only [RuleHandler.scanGroupings, if_neg hk]
        exact ih hnodup.2 hmem2

theorem scanGroupings_notFound (h : RuleHandler) (nspace name : String)
    (g : RuleGrouping)
    (hnone : ∀ groups, (nspace, groups) ∈ g → ∀ group ∈ groups, group.name ≠ name) :
    h.scanGroupings nspace name g = Except.error GoError.notFound := by
  induction g with
  | nil => rfl
  | cons p rest ih =>
    obtain ⟨key, grouping⟩ := p
    have htail : ∀ groups, (nspace, groups) ∈ rest → ∀ group ∈ groups, group.name ≠ name :=
      fun groups hm => hnone groups (List.mem_cons_of_mem _ hm)
    by_cases hk : key = nspace
    · subst hk
      have hf : findRuleGroup grouping name = none := by
        apply List.find?_eq_none.mpr
        intro x hx
        simp only [decide_eq_true_eq]
        exact hnone grouping (List.mem_cons_self _ _) x hx
      simp only [RuleHandler.scanGroupings, if_pos rfl, hf]
      exact ih htail
    · simp only [RuleHandler.scanGroupings, if_neg hk]
      exact ih htail

/-! ## Claim theorems -/

/-- C1: For every rule of the spec "rules" sequence, the translation
performed by Add/Update renames "name" to "record" when "type" is
"recording", renames "name" to "alert" when "type" is "alerting",
leaves "name" untouched for any other or missing "type", and,
independently of type, renames a non-null "query" to "expr"; in
particular the alerting example rule translates as stated. -/
theorem C1_rule_translation (r : RuleMap) (v : GoValue) :
    (goIndex r "type" = GoValue.str "recording" → alistLookup r "name" = some v →
      alistLookup (translateRule r) "record" = some v ∧
      alistLookup (translateRule r) "name" = none) ∧
    (goIndex r "type" = GoValue.str "alerting" → alistLookup r "name" = some v →
      alistLookup (translateRule r) "alert" = some v ∧
      alistLookup (translateRule r) "name" = none) ∧
    (goIndex r "type" ≠ GoValue.str "recording" →
      goIndex r "type" ≠ GoValue.str "alerting" →
      alistLookup (translateRule r) "name" = alistLookup r "name") ∧
    (alistLookup r "query" = some v → v ≠ GoValue.null →
      alistLookup (translateRule r) "expr" = some v ∧
      alistLookup (translateRule r) "query" = none) ∧
    translateRule exRule = exRuleTranslated := by
  refine ⟨?_, ?_, ?_, ?_, by decide⟩
  · intro ht hn
    have hm : renameNameField r =
        alistDelete (alistInsert r "record" (goIndex r "name")) "name" := by
      unfold renameNameField; rw [if_pos ht]
    have hg : goIndex r "name" = v := by unfold goIndex; rw [hn]; rfl
    constructor
    · simp only [translateRule]
      rw [alistLookup_renameQueryField_ne _ _ (by decide) (by decide), hm,
        alistLookup_delete_ne _ _ _ (by decide), hg, alistLookup_insert_self]
    · simp only [translateRule]
      rw [alistLookup_renameQueryField_ne _ _ (by decide) (by decide), hm,
        alistLookup_delete_self]
  · intro ht hn
    have hrec : ¬ goIndex r "type" = GoValue.str "recording" := by
      rw [ht]; decide
    have hm : renameNameField r =
        alistDelete (alistInsert r "alert" (goIndex r "name")) "name" := by
      unfold renameNameField; rw [if_neg hrec, if_pos ht]
    have hg : goIndex r "name" = v := by unfold goIndex; rw [hn]; rfl
    constructor
    · simp only [translateRule]
      rw [alistLookup_renameQueryField_ne _ _ (by decide) (by decide), hm,
        alistLookup_delete_ne _ _ _ (by decide), hg, alistLookup_insert_self]
    · simp only [translateRule]
      rw [alistLookup_renameQueryField_ne _ _ (by decide) (by decide), hm,
        alistLookup_delete_self]
  · intro ht1 ht2
    have hm : renameNameField r = r := by
      unfold renameNameField; rw [if_neg ht1, if_neg ht2]
    simp only [translateRule]
    rw [alistLookup_renameQueryField_ne _ _ (by decide) (by decide), hm]
  · intro hq hv
    have hq1 : alistLookup (renameNameField r) "query" = some v := by
      rw [alistLookup_renameNameField_ne _ _ (by decide) (by decide) (by decide), hq]
    have hgi : goIndex (renameNameField r) "query" = v := by
      unfold goIndex; rw [hq1]; rfl
    have hcond : goIndex (renameNameField r) "query" ≠ GoValue.null := by
      rw [hgi]; exact hv
    have hm : renameQueryField (renameNameField r) =
        alistDelete
          (alistInsert (renameNameField r) "expr"
            (goIndex (renameNameField r) "query")) "query" := by
      unfold renameQueryField; rw [if_pos hcond]
    constructor
    · simp only [translateRule]
      rw [hm, alistLookup_delete_ne _ _ _ (by decide), hgi, alistLookup_insert_self]
    · simp only [translateRule]
      rw [hm, alistLookup_delete_self]

/-- Witness for C1: the alerting example rule, with its hypotheses
discharged at the concrete input. -/
theorem C1_rule_translation_witness :
    goIndex exRule "type" = GoValue.str "alerting" ∧
    alistLookup exRule "name" = some (GoValue.str "HighLatency") ∧
    alistLookup (translateRule exRule) "alert" = some (GoValue.str "HighLatency") ∧
    alistLookup (translateRule exRule) "name" = none :=
  ⟨by decide, by decide,
    (C1_rule_translation exRule (GoValue.str "HighLatency")).2.1 (by decide) (by decide)⟩

/-- C3: Update performs exactly the same operation as Add — both
delegate to the translation-and-push routine, the existing resource is
never consulted, and the pushed outcome is the remote client create
call on the translated grouping (no separate update call). -/
theorem C3_update_equals_add (h : RuleHandler) (e e2 r : Resource) :
    h.Update e r = h.Add r ∧
    h.Update e r = h.Update e2 r ∧
    (h.Add r).map Prod.fst = (buildGrouping r).map h.clientTool.createRules := by
  refine ⟨rfl, rfl, ?_⟩
  cases hl : alistLookup r.spec "rules" with
  | none => simp [RuleHandler.Add, RuleHandler.writeRuleGroup, buildGrouping, hl]
  | some v =>
    cases v with
    | str s => simp [RuleHandler.Add, RuleHandler.writeRuleGroup, buildGrouping, hl]
    | rules rs => simp [RuleHandler.Add, RuleHandler.writeRuleGroup, buildGrouping, hl]
    | other g => simp [RuleHandler.Add, RuleHandler.writeRuleGroup, buildGrouping, hl]

/-- C6: GetUID fails with the missing-metadata error when the resource
has no "namespace" metadata entry, and otherwise returns the composite
id formed from the namespace and the name. -/
theorem C6_getUID (h : RuleHandler) (r : Resource) (nspace : String) :
    (hasMetadata r "namespace" = false →
      h.GetUID r =
        Except.error (GoError.missingMetadata PrometheusRuleGroupKind r.name)) ∧
    (alistLookup r.metadata "namespace" = some nspace →
      h.GetUID r = Except.ok (nspace ++ "." ++ r.name)) := by
  constructor
  · intro hm
    simp [RuleHandler.GetUID, hm]
  · intro hm
    have h1 : hasMetadata r "namespace" = true := by simp [hasMetadata, hm]
    simp [RuleHandler.GetUID, h1, getMetadata, hm]

/-- Witness for C6: both branches at concrete resources. -/
theorem C6_getUID_witness :
    (hasMetadata exResourceNoNs "namespace" = false ∧
      exHandler.GetUID exResourceNoNs =
        Except.error (GoError.missingMetadata PrometheusRuleGroupKind "latency")) ∧
    (alistLookup exResource.metadata "namespace" = some "teamA" ∧
      exHandler.GetUID exResource = Except.ok ("teamA" ++ "." ++ "latency")) :=
  ⟨⟨by decide, (C6_getUID exHandler exResourceNoNs "teamA").1 (by decide)⟩,
    ⟨by decide, (C6_getUID exHandler exResource "teamA").2 (by decide)⟩⟩

/-- C7: Validate succeeds when the spec has no "uid" entry or the
entry equals the resource name, fails with a mismatch error naming
both values when it differs, and is independent of the handler state
(in particular it never contacts the remote client). -/
theorem C7_validate (h : RuleHandler) (r : Resource) (u : String) :
    (alistLookup r.spec "uid" = none → h.Validate r = Except.ok ()) ∧
    (alistLookup r.spec "uid" = some (SpecValue.str r.name) →
      h.Validate r = Except.ok ()) ∧
    (alistLookup r.spec "uid" = some (SpecValue.str u) → u ≠ r.name →
      h.Validate r = Except.error (GoError.mismatch u r.name)) ∧
    (∀ h2 : RuleHandler, h.Validate r = h2.Validate r) := by
  refine ⟨?_, ?_, ?_, fun h2 => rfl⟩
  · intro hu
    simp [RuleHandler.Validate, getSpecString, hu]
  · intro hu
    simp [RuleHandler.Validate, getSpecString, hu]
  · intro hu hne
    simp [RuleHandler.Validate, getSpecString, hu, hne]

/-- Witness for C7: the mismatching concrete resource. -/
theorem C7_validate_witness :
    alistLookup exResourceBadUid.spec "uid" = some (SpecValue.str "other") ∧
    exHandler.Validate exResourceBadUid =
      Except.error (GoError.mismatch "other" "latency") :=
  ⟨by decide,
    (C7_validate exHandler exResourceBadUid "other").2.2.1 (by decide) (by decide)⟩

/-- C8: ResourceFilePath is a total function that replaces every path
separator of the name by a hyphen inside the fixed template, with the
two concrete examples of the spec. -/
theorem C8_resourceFilePath (h : RuleHandler) (r : Resource) (ft : String) :
    h.ResourceFilePath r ft =
      "prometheus/rules-" ++
        String.mk (r.name.toList.map (fun c => if c = '/' then '-' else c)) ++
        "." ++ ft ∧
    '/' ∉ replaceSepChars r.name.toList ∧
    (r.name = "alerts" → ft = "yaml" →
      h.ResourceFilePath r ft = "prometheus/rules-alerts.yaml") ∧
    (r.name = "a/b" → ft = "yaml" →
      h.ResourceFilePath r ft = "prometheus/rules-a-b.yaml") := by
  refine ⟨?_, slash_not_mem_replaceSepChars _, ?_, ?_⟩
  · simp [RuleHandler.ResourceFilePath, replaceSepChars_eq_map]
  · intro h1 h2
    simp only [RuleHandler.ResourceFilePath, h1, h2]
    decide
  · intro h1 h2
    simp only [RuleHandler.ResourceFilePath, h1, h2]
    decide

/-- Witness for C8: the separator-containing example. -/
theorem C8_resourceFilePath_witness :
    exResourceSlash.name = "a/b" ∧
    exHandler.ResourceFilePath exResourceSlash "yaml" = "prometheus/rules-a-b.yaml" :=
  ⟨rfl, (C8_resourceFilePath exHandler exResourceSlash "yaml").2.2.2 rfl rfl⟩

/-- C2: GetByUID on a composite id namespace.name returns, when the
remote grouping holds that namespace and a group of that name, a fresh
resource of this kind carrying the group name, the namespace metadata
entry, and a spec holding only the raw remote rule list; it returns
the not-found error when nothing matches, and propagates a ListRules
failure unchanged. -/
theorem C2_getByUID (h : RuleHandler) (nspace name : String) (g : RuleGrouping)
    (hdot : '.' ∉ nspace.toList) :
    (h.clientTool.listRules = Except.ok g →
      ((g.map Prod.fst).Nodup →
        ∀ (groups : List PrometheusRuleGroup) (group : PrometheusRuleGroup),
          (nspace, groups) ∈ g → findRuleGroup groups name = some group →
          h.GetByUID (nspace ++ "." ++ name) =
            some (Except.ok
              { apiVersion := h.apiVersion, kind := PrometheusRuleGroupKind,
                name := group.name, metadata := [("namespace", nspace)],
                spec := [("rules", SpecValue.rules group.rules)] })) ∧
      ((∀ groups, (nspace, groups) ∈ g → ∀ group ∈ groups, group.name ≠ name) →
        h.GetByUID (nspace ++ "." ++ name) =
          some (Except.error GoError.notFound))) ∧
    (∀ e : GoError, h.clientTool.listRules = Except.error e →
      h.GetByUID (nspace ++ "." ++ name) = some (Except.error e)) := by
  have hsplit := getByUID_split h nspace name hdot
  refine ⟨fun hok => ⟨?_, ?_⟩, ?_⟩
  · intro hnodup groups group hmem hfind
    rw [hsplit]
    unfold RuleHandler.lookupRuleGroup
    rw [hok]
    show some (h.scanGroupings nspace name g) = _
    rw [scanGroupings_found h nspace name g hnodup groups group hmem hfind]
    rfl
  · intro hnone
    rw [hsplit]
    unfold RuleHandler.lookupRuleGroup
    rw [hok]
    show some (h.scanGroupings nspace name g) = _
    rw [scanGroupings_notFound h nspace name g hnone]
  · intro e herr
    rw [hsplit]
    unfold RuleHandler.lookupRuleGroup
    rw [herr]

/-- Witness for C2: the lookup of "teamA.latency" against the example
grouping, with every hypothesis discharged at the concrete input. -/
theorem C2_getByUID_witness :
    exHandler.clientTool.listRules = Except.ok [("teamA", [⟨"latency", [exRule]⟩])] ∧
    exHandler.GetByUID ("teamA" ++ "." ++ "latency") =
      some (Except.ok
        { apiVersion := "v1", kind := PrometheusRuleGroupKind,
          name := "latency", metadata := [("namespace", "teamA")],
          spec := [("rules", SpecValue.rules [exRule])] }) :=
  ⟨rfl,
    ((C2_getByUID exHandler "teamA" "latency" [("teamA", [⟨"latency", [exRule]⟩])]
        (by decide)).1 rfl).1 (by decide) [⟨"latency", [exRule]⟩] ⟨"latency", [exRule]⟩
      (by decide) rfl⟩

/-- C9: the access to the second component of the split uid is in
range exactly when the uid contains a dot: the split has two parts iff
a dot occurs, and the uid lookup behind GetByUID proceeds (rather than
hitting the out-of-range access, modelled by none) iff a dot occurs. -/
theorem C9_uid_split_safety (h : RuleHandler) (uid : String) :
    ((splitN2Dot uid).length = 2 ↔ '.' ∈ uid.toList) ∧
    ((h.GetByUID uid).isSome = true ↔ '.' ∈ uid.toList) := by
  constructor
  · unfold splitN2Dot
    cases hb : breakAtDot uid.toList with
    | none =>
      have := breakAtDot_isSome uid.toList
      rw [hb] at this
      simp only [Option.isSome_none, Bool.false_eq_true, false_iff] at this
      simp [this]
      exact this
    | some p =>
      have := breakAtDot_isSome uid.toList
      rw [hb] at this
      simp only [Option.isSome_some, true_iff] at this
      obtain ⟨a, b⟩ := p
      simp [this]
      exact this
  · unfold RuleHandler.GetByUID RuleHandler.getRemoteRuleGroup splitN2Dot
    cases hb : breakAtDot uid.toList with
    | none =>
      have := breakAtDot_isSome uid.toList
      rw [hb] at this
      simp only [Option.isSome_none, Bool.false_eq_true, false_iff] at this
      simp [this]
      exact this
    | some p =>
      have := breakAtDot_isSome uid.toList
      rw [hb] at this
      simp only [Option.isSome_some, true_iff] at this
      obtain ⟨a, b⟩ := p
      simp [this]
      exact this

/-- C10: the composite id produced by GetUID round-trips through the
uid split whenever the namespace is dot-free (so group names holding
dots stay addressable), while a namespace that itself holds a dot is
never matched by GetByUID, because the parsed namespace is always the
dot-free part before the first dot. -/
theorem C10_uid_roundtrip (h : RuleHandler) (nspace name NS : String)
    (groups : List PrometheusRuleGroup)
    (h1 : '.' ∉ nspace.toList) (h2 : '.' ∈ NS.toList) :
    splitN2Dot (nspace ++ "." ++ name) = [nspace, name] ∧
    (∀ r : Resource, alistLookup r.metadata "namespace" = some nspace →
      r.name = name → h.GetUID r = Except.ok (nspace ++ "." ++ name)) ∧
    h.GetByUID (nspace ++ "." ++ name) = some (h.lookupRuleGroup nspace name) ∧
    (∀ uid : String,
      RuleHandler.GetByUID
        ⟨h.apiVersion, ⟨Except.ok [(NS, groups)], h.clientTool.createRules⟩⟩ uid =
          none ∨
      RuleHandler.GetByUID
        ⟨h.apiVersion, ⟨Except.ok [(NS, groups)], h.clientTool.createRules⟩⟩ uid =
          some (Except.error GoError.notFound)) := by
  refine ⟨splitN2Dot_append _ _ h1, ?_, getByUID_split h nspace name h1, ?_⟩
  · intro r hm hn
    have hh : hasMetadata r "namespace" = true := by simp [hasMetadata, hm]
    simp [RuleHandler.GetUID, hh, getMetadata, hm, hn]
  · intro uid
    unfold RuleHandler.GetByUID RuleHandler.getRemoteRuleGroup splitN2Dot
    cases hb : breakAtDot uid.toList with
    | none => exact Or.inl rfl
    | some p =>
      obtain ⟨a, b⟩ := p
      refine Or.inr ?_
      show some _ = _
      have hne : ¬ NS = String.mk a := by
        intro he
        have : '.' ∈ a := by
          have hta : (String.mk a).toList = a := rfl
          rw [he] at h2
          rw [hta] at h2
          exact h2
        exact breakAtDot_fst_no_dot uid.toList a b hb this
      unfold RuleHandler.lookupRuleGroup
      simp only [RuleHandler.scanGroupings, if_neg hne]

/-- Witness for C10: the round trip for namespace "teamA" and the
dotted group name "a.b". -/
theorem C10_uid_roundtrip_witness :
    ('.' ∉ "teamA".toList) ∧ ('.' ∈ "x.y".toList) ∧
    exHandler.GetByUID ("teamA" ++ "." ++ "a.b") =
      some (exHandler.lookupRuleGroup "teamA" "a.b") :=
  ⟨by decide, by decide,
    (C10_uid_roundtrip exHandler "teamA" "a.b" "x.y" [] (by decide) (by decide)).2.2.1⟩

/-- C4 counterexample: Add does mutate the caller-visible resource.
For the concrete alerting resource, after the write the spec "rules"
sequence holds the translated rule (with "alert" and "expr") and no
longer equals the original spec. -/
theorem C4_no_mutation_counterexample :
    (exHandler.Add exResource).map (fun p => p.2.spec) =
      some [("rules", SpecValue.rules [exRuleTranslated])] ∧
    ¬ (exHandler.Add exResource).map (fun p => p.2.spec) = some exResource.spec := by
  constructor
  · decide
  · decide

/-- C4 amended: Add and Update translate the rule maps of the spec
"rules" sequence in place, so after the call the caller-visible
resource holds the translated rules (the same objects pushed remotely)
rather than the original ones; everything else is unchanged. -/
theorem C4_translation_mutates (h : RuleHandler) (e r : Resource)
    (rules : List RuleMap)
    (hr : alistLookup r.spec "rules" = some (SpecValue.rules rules)) :
    (h.Add r).map Prod.snd =
      some { r with spec := alistInsert r.spec "rules" (SpecValue.rules (rules.map translateRule)) } ∧
    (h.Update e r).map Prod.snd =
      some { r with spec := alistInsert r.spec "rules" (SpecValue.rules (rules.map translateRule)) } := by
  constructor
  · simp [RuleHandler.Add, RuleHandler.writeRuleGroup, hr]
  · simp [RuleHandler.Update, RuleHandler.writeRuleGroup, hr]

/-- Witness for C4 amended: the concrete alerting resource. -/
theorem C4_translation_mutates_witness :
    alistLookup exResource.spec "rules" = some (SpecValue.rules [exRule]) ∧
    (exHandler.Add exResource).map Prod.snd =
      some { exResource with spec := alistInsert exResource.spec "rules" (SpecValue.rules ([exRule].map translateRule)) } :=
  ⟨by decide,
    (C4_translation_mutates exHandler exResource exResource [exRule] (by decide)).1⟩

/-- C5: ListRemote, on a successful ListRules round trip, returns
without error a sequence whose elements are exactly the composite ids
namespace.group-name over the whole grouping (set equality), it
propagates a ListRules failure, and on the concrete two-namespace
example it returns exactly the three expected ids. -/
theorem C5_listRemote (h : RuleHandler) (g : RuleGrouping) (ids : List String)
    (s : String) (e : GoError) :
    (h.clientTool.listRules = Except.ok g → h.ListRemote ≠ Except.error e) ∧
    (h.clientTool.listRules = Except.ok g → h.ListRemote = Except.ok ids →
      (s ∈ ids ↔ ∃ p ∈ g, ∃ group ∈ p.2, s = p.1 ++ "." ++ group.name)) ∧
    (h.clientTool.listRules = Except.error e → h.ListRemote = Except.error e) ∧
    exHandler5.ListRemote = Except.ok ["teamA.g1", "teamB.g2", "teamB.g3"] := by
  refine ⟨?_, ?_, ?_, by rfl⟩
  · intro hok
    simp [RuleHandler.ListRemote, RuleHandler.getRemoteRuleGroupList, hok]
  · intro hok hids
    simp only [RuleHandler.ListRemote, RuleHandler.getRemoteRuleGroupList, hok,
      Except.ok.injEq] at hids
    subst hids
    simp only [List.mem_flatMap, List.mem_map]
    constructor
    · rintro ⟨p, hp, group, hg, rfl⟩
      exact ⟨p, hp, group, hg, rfl⟩
    · rintro ⟨p, hp, group, hg, rfl⟩
      exact ⟨p, hp, group, hg, rfl⟩
  · intro herr
    simp [RuleHandler.ListRemote, RuleHandler.getRemoteRuleGroupList, herr]

/-- Witness for C5: the error-propagation branch at the concrete
failing client. -/
theorem C5_listRemote_witness :
    exHandlerErr.clientTool.listRules = Except.error (GoError.clientError "boom") ∧
    exHandlerErr.ListRemote = Except.error (GoError.clientError "boom") :=
  ⟨rfl,
    (C5_listRemote exHandlerErr [] [] "" (GoError.clientError "boom")).2.2.1 rfl⟩

end Grizzly
